import Mathlib

/-!
Verification of the file-backed transactions CRUD application (src/app.py).

The application keeps a list of transaction records (an integer id, a date
string and a numeric amount) in memory, persists them to one JSON file, and
exposes add/edit/delete handlers over them.  This development embeds the
persistence helpers (`_normalize_record`, `load_transactions`, the atomic
save) and the CRUD handlers as pure Lean functions and proves the spec's
claims about them.

Modelling conventions:
- Python numbers are embedded as `Int` (ints) and `Rat` (floats).  Every
  float the program manipulates is a decimal literal read from JSON or from a
  form field, so exact rational arithmetic matches the observable behaviour;
  infinities and NaN are outside the model.
- `json.load`'s result is embedded as the inductive `JVal`; the data file is
  a `FileState`: absent, empty, made of bytes that do not decode as UTF-8,
  decodable but not parsable as JSON, or holding a parsed `JVal`.  Modelling
  the file at this level is faithful because the program only ever observes
  the file through `json.load` on a UTF-8 text handle.
- Raised exceptions are embedded as `Option` results: `float(...)` on a bad
  string yields a distinguished handler outcome, and `json.load` on a
  non-UTF-8 file raises a UnicodeDecodeError that `load_transactions` does
  not catch (it catches only JSONDecodeError), so the loader itself is
  fallible and returns `none` on that input.
-/

/-- An in-memory transaction record, the normalized shape `_normalize_record`
produces: integer id, string date, float amount. -/
structure Record where
  id : Int
  date : String
  amount : Rat
deriving DecidableEq, Repr

/-- A parsed JSON value as `json.load` returns it: Python `None`, `bool`,
`int`, `float`, `str`, `list` and `dict` (an object is kept as its key/value
pairs in file order; lookup resolves repeated keys like Python, last wins). -/
inductive JVal where
  | jnull
  | jbool (b : Bool)
  | jint (n : Int)
  | jfloat (q : Rat)
  | jstr (s : String)
  | jarr (elems : List JVal)
  | jobj (fields : List (String × JVal))

/-- The state of the data file as the program can observe it: missing, empty
(`st_size == 0`), nonempty with bytes that do not decode as UTF-8, decodable
as UTF-8 text that `json.load` fails to parse, or parsed JSON content. -/
inductive FileState where
  | absent
  | emptyFile
  | notUtf8
  | notJson
  | content (v : JVal)

/-- The characters Python's str.strip() removes (ASCII whitespace). -/
def isPySpace (c : Char) : Bool :=
  c == ' ' || c == '\t' || c == '\n' || c == '\r' || c == '\x0b' || c == '\x0c'

/-- strip() on a character list: whitespace removed from both ends. -/
def stripChars (cs : List Char) : List Char :=
  ((cs.dropWhile isPySpace).reverse.dropWhile isPySpace).reverse

/-- The natural number a list of decimal digit characters denotes. -/
def digitsToNat (cs : List Char) : Nat :=
  cs.foldl (fun a c => a * 10 + (c.toNat - '0'.toNat)) 0

/-- Split a leading run of decimal digits off a character list. -/
def spanDigits (cs : List Char) : List Char × List Char :=
  (cs.takeWhile Char.isDigit, cs.dropWhile Char.isDigit)

/-- Python `int(s)` on a string: optional surrounding whitespace, an optional
sign, then decimal digits; anything else raises ValueError (`none`). -/
def pyIntOfString? (s : String) : Option Int :=
  let cs := stripChars s.toList
  let sign : Int := match cs with
    | '-' :: _ => -1
    | _ => 1
  let rest : List Char := match cs with
    | '-' :: r => r
    | '+' :: r => r
    | r => r
  if rest.isEmpty then none
  else if rest.all Char.isDigit then some (sign * (digitsToNat rest : Int))
  else none

/-- The optional exponent part of a float literal, applied to the mantissa
`mnum / mden`: an optional sign and then decimal digits scale the value by
the corresponding power of ten. -/
def expPart (mnum : Int) (mden : Nat) (r : List Char) : Option Rat :=
  let epos : Bool := match r with
    | '-' :: _ => false
    | _ => true
  let r1 : List Char := match r with
    | '-' :: r' => r'
    | '+' :: r' => r'
    | r' => r'
  let (ed, r2) := spanDigits r1
  if ed.isEmpty || !r2.isEmpty then none
  else if epos then some (mkRat (mnum * (10 : Int) ^ digitsToNat ed) mden)
  else some (mkRat mnum (mden * 10 ^ digitsToNat ed))

/-- Python `float(s)` on a string: optional whitespace and sign, a decimal
mantissa (`d+`, `d+.d*` or `.d+`) and an optional decimal exponent; anything
else raises ValueError (`none`).  The value is the exact rational the literal
denotes, built as mantissa digits over the matching power of ten. -/
def pyFloatOfString? (s : String) : Option Rat :=
  let cs := stripChars s.toList
  let neg : Bool := match cs with
    | '-' :: _ => true
    | _ => false
  let cs1 : List Char := match cs with
    | '-' :: r => r
    | '+' :: r => r
    | r => r
  let (ip, cs2) := spanDigits cs1
  let (fp, cs3) := match cs2 with
    | '.' :: r => spanDigits r
    | r => ([], r)
  let hasDot : Bool := match cs2 with
    | '.' :: _ => true
    | _ => false
  if ip.isEmpty && (!hasDot || fp.isEmpty) then none
  else
    let mabs : Int := (digitsToNat ip * 10 ^ fp.length + digitsToNat fp : Nat)
    let mnum : Int := if neg then -mabs else mabs
    let mden : Nat := 10 ^ fp.length
    match cs3 with
    | [] => some (mkRat mnum mden)
    | 'e' :: r => expPart mnum mden r
    | 'E' :: r => expPart mnum mden r
    | _ => none

/-- Python `int(x)` on a float: truncation toward zero. -/
def pyIntOfRat (q : Rat) : Int :=
  q.num.tdiv (q.den : Int)

/-- Python `int(x)` on a parsed JSON value; `none` is a raised TypeError or
ValueError.  Note `bool` is an `int` subclass in Python. -/
def pyInt? : JVal → Option Int
  | .jint n => some n
  | .jfloat q => some (pyIntOfRat q)
  | .jbool b => some (if b then 1 else 0)
  | .jstr s => pyIntOfString? s
  | _ => none

/-- Python `float(x)` on a parsed JSON value; `none` is a raised error. -/
def pyFloat? : JVal → Option Rat
  | .jint n => some (n : Rat)
  | .jfloat q => some q
  | .jbool b => some (if b then 1 else 0)
  | .jstr s => pyFloatOfString? s
  | _ => none

/-- The exact decimal digits of a fraction `num/den` (with `num < den`),
produced digit by digit; `fuel` bounds the length and covers every
terminating expansion a Python float can have. -/
def fracDigits : Nat → Nat → Nat → String
  | 0, _, _ => ""
  | _, 0, _ => ""
  | fuel + 1, num, den =>
      let d := num * 10 / den
      let r := num * 10 % den
      toString d ++ fracDigits fuel r den

/-- Python `str` of a float: sign, integer part, a dot and the fractional
digits (`"0"` when the value is integral). -/
def pyStrOfRat (q : Rat) : String :=
  let sgn := if q < 0 then "-" else ""
  let n := q.num.natAbs
  let ip := n / q.den
  let fr := n % q.den
  sgn ++ toString ip ++ "." ++ (if fr = 0 then "0" else fracDigits 1200 fr q.den)

/-- Python `repr` of a parsed JSON value, with fuel for the nesting depth
(any JSON a real file yields nests far below the fuel used in `pyStr`).
String escaping inside `repr` is not refined further: no claim observes it. -/
def pyReprGo : Nat → JVal → String
  | 0, _ => ""
  | _, .jnull => "None"
  | _, .jbool b => if b then "True" else "False"
  | _, .jint n => toString n
  | _, .jfloat q => pyStrOfRat q
  | _, .jstr s => "\x27" ++ s ++ "\x27"
  | fuel + 1, .jarr xs => "[" ++ String.intercalate ", " (xs.map (pyReprGo fuel)) ++ "]"
  | fuel + 1, .jobj fs =>
      "\x7b" ++
        String.intercalate ", "
          (fs.map (fun p => "\x27" ++ p.1 ++ "\x27: " ++ pyReprGo fuel p.2)) ++
      "\x7d"

/-- Python `str(x)` on a parsed JSON value: never raises. -/
def pyStr : JVal → String
  | .jstr s => s
  | .jint n => toString n
  | .jfloat q => pyStrOfRat q
  | .jbool b => if b then "True" else "False"
  | .jnull => "None"
  | .jarr xs => pyReprGo 1000000 (.jarr xs)
  | .jobj fs => pyReprGo 1000000 (.jobj fs)

/-- `dict.get` on a parsed JSON object; for a key repeated in the file,
`json.load` keeps the last value, so lookup takes the last occurrence. -/
def dictGet (fields : List (String × JVal)) (k : String) : Option JVal :=
  match fields.reverse.find? (fun p => p.1 == k) with
  | some p => some p.2
  | none => none

/-- Whether a parsed JSON object's key set equals the given key list (dict
equality in Python compares key sets, ignoring order and repetitions). -/
def sameKeySet (fields : List (String × JVal)) (keys : List String) : Bool :=
  (fields.all fun p => keys.contains p.1) &&
  (keys.all fun k => (fields.map Prod.fst).contains k)

/-- Python `==` between a parsed JSON value and a Python number (`1 == 1.0`
and `True == 1` both hold in Python). -/
def pyEqRat (v : JVal) (q : Rat) : Bool :=
  match v with
  | .jint m => decide ((m : Rat) = q)
  | .jfloat p => decide (p = q)
  | .jbool b => decide ((if b then 1 else 0 : Rat) = q)
  | _ => false

/-- Python `==` between a parsed JSON value and a Python string. -/
def pyEqStr (v : JVal) (s : String) : Bool :=
  match v with
  | .jstr t => decide (t = s)
  | _ => false

/-- Python `==` between a raw parsed array element and a normalized record
dict: both are dicts with the same key set and equal values at each key. -/
def jvalEqRecord (v : JVal) (r : Record) : Bool :=
  match v with
  | .jobj fields =>
      sameKeySet fields ["id", "date", "amount"] &&
      (match dictGet fields "id" with
       | some x => pyEqRat x (r.id : Rat)
       | none => false) &&
      (match dictGet fields "date" with
       | some x => pyEqStr x r.date
       | none => false) &&
      (match dictGet fields "amount" with
       | some x => pyEqRat x r.amount
       | none => false)
  | _ => false

/-- Python `cleaned == data`: list equality, element-wise between the
normalized records and the raw parsed elements. -/
def listEqRecords (data : List JVal) (cleaned : List Record) : Bool :=
  match data, cleaned with
  | [], [] => true
  | v :: vs, r :: rs => jvalEqRecord v r && listEqRecords vs rs
  | _, _ => false

/-- app.py `_normalize_record(item, fallback_id)`: a non-dict element yields
`None`; otherwise `id`, `date` and `amount` are read with defaults
(`fallback_id`, `''`, `0`) and coerced with `int`, `str`, `float`; a raised
TypeError/ValueError yields `None`. -/
def «_normalize_record» (item : JVal) (fallback_id : Int) : Option Record :=
  match item with
  | .jobj fields =>
      let idv := (dictGet fields "id").getD (.jint fallback_id)
      let datev := (dictGet fields "date").getD (.jstr "")
      let amountv := (dictGet fields "amount").getD (.jint 0)
      match pyInt? idv, pyFloat? amountv with
      | some i, some a => some ⟨i, pyStr datev, a⟩
      | _, _ => none
  | _ => none

/-- The cleaning loop of `load_transactions`: `enumerate(data, start=1)`
supplies each element's fallback id; elements normalizing to `None` are
dropped. -/
def cleanFrom (i : Int) : List JVal → List Record
  | [] => []
  | item :: rest =>
      match «_normalize_record» item i with
      | some r => r :: cleanFrom (i + 1) rest
      | none => cleanFrom (i + 1) rest

/-- `json.dump` of one in-memory record: keys in insertion order; the amount
of a normalized or form-created record is a Python float. -/
def recordToJ (r : Record) : JVal :=
  .jobj [("id", .jint r.id), ("date", .jstr r.date), ("amount", .jfloat r.amount)]

/-- `json.dump` of the in-memory list. -/
def jsonOfList (ts : List Record) : JVal :=
  .jarr (ts.map recordToJ)

/-- app.py `DEFAULT_TRANSACTIONS`, as in-memory records. -/
def DEFAULT_TRANSACTIONS : List Record :=
  [⟨1, "2023-06-01", 100⟩, ⟨2, "2023-06-02", -200⟩, ⟨3, "2023-06-03", 300⟩]

/-- The file content `_atomic_save(DEFAULT_TRANSACTIONS)` writes: the literal
default dicts, whose amounts are Python ints. -/
def DEFAULT_FILE_JSON : JVal :=
  .jarr
    [ .jobj [("id", .jint 1), ("date", .jstr "2023-06-01"), ("amount", .jint 100)],
      .jobj [("id", .jint 2), ("date", .jstr "2023-06-02"), ("amount", .jint (-200))],
      .jobj [("id", .jint 3), ("date", .jstr "2023-06-03"), ("amount", .jint 300)] ]

/-- app.py `load_transactions()`, acting on the observable file state and
returning the loaded list together with the file state it leaves behind.
A missing/empty file, text that raises `json.JSONDecodeError`, and parsed
non-array content all fall back to the defaults (written back atomically); an
array is cleaned element-wise and written back exactly when cleaning changed
it.  The `try` block catches only `json.JSONDecodeError`: reading a file
whose bytes are not valid UTF-8 raises a `UnicodeDecodeError` inside
`json.load` that propagates uncaught, so on that input the loader fails
(`none`) instead of recovering. -/
def load_transactions : FileState → Option (List Record × FileState)
  | .absent => some (DEFAULT_TRANSACTIONS, .content DEFAULT_FILE_JSON)
  | .emptyFile => some (DEFAULT_TRANSACTIONS, .content DEFAULT_FILE_JSON)
  | .notUtf8 => none
  | .notJson => some (DEFAULT_TRANSACTIONS, .content DEFAULT_FILE_JSON)
  | .content v =>
      match v with
      | .jarr data =>
          let cleaned := cleanFrom 1 data
          if listEqRecords data cleaned then some (cleaned, .content (.jarr data))
          else some (cleaned, .content (jsonOfList cleaned))
      | _ => some (DEFAULT_TRANSACTIONS, .content DEFAULT_FILE_JSON)

/-- app.py `save_transactions()` / `_atomic_save(transactions)`: after it the
file holds exactly the JSON of the in-memory list (the write is atomic: a
reader sees either the old or the new content, embodied here by the file
state being replaced in one step). -/
def save_transactions (ts : List Record) : FileState :=
  .content (jsonOfList ts)

/-- Python `max(gen, default=d)`: `d` only for an empty sequence. -/
def pyMaxD (l : List Int) (d : Int) : Int :=
  match l with
  | [] => d
  | x :: xs => xs.foldl max x

/-- app.py `next_id()`: one more than the maximum id, with `max` defaulting
to 0 on an empty list. -/
def next_id (transactions : List Record) : Int :=
  pyMaxD (transactions.map fun t => t.id) 0 + 1

/-- The mutable module state: the in-memory list and the data file. -/
structure Store where
  transactions : List Record
  file : FileState

/-- A handler's observable outcome. -/
inductive HttpResult where
  | redirect
  | addForm
  | editPage (t : Record)
  | notFound
  | valueError
deriving DecidableEq, Repr

/-- app.py `add_transaction` (POST): `float(request.form['amount'])` first —
a bad string raises ValueError before any mutation; otherwise the record gets
`next_id()`, is appended, and the list is saved. -/
def add_transaction (st : Store) (date : String) (amountRaw : String) :
    Store × HttpResult :=
  match pyFloatOfString? amountRaw with
  | none => (st, .valueError)
  | some amount =>
      let t : Record := ⟨next_id st.transactions, date, amount⟩
      let ts := st.transactions ++ [t]
      (⟨ts, save_transactions ts⟩, .redirect)

/-- The lookup-and-mutate loop of `edit_transaction`'s POST branch: the first
record with matching id gets the new date and amount in place, then
`save_transactions()` runs and the loop breaks; the Bool reports whether a
record was found (and hence whether a save happened). -/
def editFirst (tid : Int) (date : String) (amount : Rat) :
    List Record → List Record × Bool
  | [] => ([], false)
  | t :: ts =>
      if t.id = tid then (⟨t.id, date, amount⟩ :: ts, true)
      else
        let p := editFirst tid date amount ts
        (t :: p.1, p.2)

/-- app.py `edit_transaction` (POST): `float(...)` first (ValueError before
any mutation); then the first matching record is overwritten and saved; with
or without a match the response is a redirect to the list. -/
def edit_transaction_post (st : Store) (tid : Int) (date : String)
    (amountRaw : String) : Store × HttpResult :=
  match pyFloatOfString? amountRaw with
  | none => (st, .valueError)
  | some amount =>
      let p := editFirst tid date amount st.transactions
      (⟨p.1, if p.2 then save_transactions p.1 else st.file⟩, .redirect)

/-- app.py `edit_transaction` (GET): render the edit form for the first
matching record, else the 404 not-found response. -/
def edit_transaction_get (st : Store) (tid : Int) : HttpResult :=
  match st.transactions.find? (fun t => t.id == tid) with
  | some t => .editPage t
  | none => .notFound

/-- app.py: `next((i for i, t in enumerate(transactions) if t['id'] ==
transaction_id), None)`. -/
def firstIdxWithId (tid : Int) : List Record → Option Nat
  | [] => none
  | t :: ts =>
      if t.id = tid then some 0
      else (firstIdxWithId tid ts).map (· + 1)

/-- app.py `delete_transaction`: pop the first matching index and save; when
there is none, nothing is mutated and nothing is saved. -/
def delete_transaction (st : Store) (tid : Int) : Store × HttpResult :=
  match firstIdxWithId tid st.transactions with
  | some i =>
      let ts := st.transactions.eraseIdx i
      (⟨ts, save_transactions ts⟩, .redirect)
  | none => (st, .redirect)

/-! Helper lemmas about the embedding. -/

/-- Normalizing the JSON of a well-formed record recovers the record, for any
fallback id. -/
lemma normalize_recordToJ (r : Record) (i : Int) :
    «_normalize_record» (recordToJ r) i = some r := rfl

/-- Cleaning the JSON of a well-formed list recovers the list, from any
starting index. -/
lemma cleanFrom_map_recordToJ (ts : List Record) (i : Int) :
    cleanFrom i (ts.map recordToJ) = ts := by
  induction ts generalizing i with
  | nil => rfl
  | cons t ts ih => simp [cleanFrom, normalize_recordToJ, ih]

/-- The JSON of a record is Python-equal to the record itself. -/
lemma jvalEqRecord_recordToJ (r : Record) : jvalEqRecord (recordToJ r) r = true := by
  have h : jvalEqRecord (recordToJ r) r
      = (((true && decide ((r.id : Rat) = (r.id : Rat))) && decide (r.date = r.date)) &&
          decide (r.amount = r.amount)) := rfl
  rw [h]
  simp

/-- The JSON of a well-formed list is Python-equal to the list itself, so a
load of it performs no rewriting. -/
lemma listEqRecords_map_recordToJ (ts : List Record) :
    listEqRecords (ts.map recordToJ) ts = true := by
  induction ts with
  | nil => rfl
  | cons t ts ih => simp [listEqRecords, jvalEqRecord_recordToJ, ih]

/-- The seed of a left fold by `max` is a lower bound of the result. -/
lemma le_foldl_max_init (xs : List Int) (a : Int) : a ≤ xs.foldl max a := by
  induction xs generalizing a with
  | nil => exact le_refl a
  | cons x xs ih => exact le_trans (le_max_left a x) (ih (max a x))

/-- Every element of the list is at most the left fold by `max`. -/
lemma mem_le_foldl_max (xs : List Int) (a : Int) : ∀ y ∈ xs, y ≤ xs.foldl max a := by
  induction xs generalizing a with
  | nil => intro y hy; cases hy
  | cons x xs ih =>
    intro y hy
    rcases List.mem_cons.mp hy with rfl | hy'
    · exact le_trans (le_max_right a y) (le_foldl_max_init xs (max a y))
    · exact ih (max a x) y hy'

/-- Python `max(l, default=d)` bounds every element of `l` from above. -/
lemma le_pyMaxD (l : List Int) (d : Int) : ∀ x ∈ l, x ≤ pyMaxD l d := by
  cases l with
  | nil => intro x hx; cases hx
  | cons x xs =>
    intro y hy
    rcases List.mem_cons.mp hy with rfl | hy'
    · exact le_foldl_max_init xs y
    · exact mem_le_foldl_max xs x y hy'

/-- A left fold by `max` is its seed or one of the elements. -/
lemma foldl_max_mem (xs : List Int) (a : Int) :
    xs.foldl max a = a ∨ xs.foldl max a ∈ xs := by
  induction xs generalizing a with
  | nil => exact Or.inl rfl
  | cons x xs ih =>
    rcases ih (max a x) with h | h
    · rcases max_choice a x with hm | hm
      · exact Or.inl (by rw [List.foldl_cons, h, hm])
      · exact Or.inr (by rw [List.foldl_cons, h, hm]; exact List.mem_cons_self x xs)
    · exact Or.inr (List.mem_cons_of_mem x h)

/-- On a non-empty list, Python `max(l, default=d)` is one of the elements. -/
lemma pyMaxD_mem (l : List Int) (d : Int) (h : l ≠ []) : pyMaxD l d ∈ l := by
  cases l with
  | nil => exact absurd rfl h
  | cons x xs =>
    rcases foldl_max_mem xs x with h1 | h1
    · show xs.foldl max x ∈ x :: xs
      rw [h1]
      exact List.mem_cons_self x xs
    · show xs.foldl max x ∈ x :: xs
      exact List.mem_cons_of_mem x h1

/-- The edit loop leaves the ids of the list unchanged. -/
lemma editFirst_map_id (tid : Int) (d : String) (a : Rat) (ts : List Record) :
    (editFirst tid d a ts).1.map (fun t => t.id) = ts.map (fun t => t.id) := by
  induction ts with
  | nil => rfl
  | cons t ts ih =>
    by_cases h : t.id = tid
    · simp [editFirst, h]
    · simp [editFirst, h, ih]

/-- When no record has the id, the edit loop changes nothing and reports that
nothing was found. -/
lemma editFirst_not_found (tid : Int) (d : String) (a : Rat) (ts : List Record)
    (h : ∀ t ∈ ts, t.id ≠ tid) : editFirst tid d a ts = (ts, false) := by
  induction ts with
  | nil => rfl
  | cons t ts ih =>
    have ht : ¬ t.id = tid := h t (List.mem_cons_self t ts)
    have ih' := ih (fun u hu => h u (List.mem_cons_of_mem t hu))
    simp [editFirst, ht, ih']

/-- The first-index search of `delete_transaction` either splits the list
around the first matching record or reports that no record matches. -/
lemma firstIdxWithId_cases (tid : Int) (ts : List Record) :
    (∃ pre t post, ts = pre ++ t :: post ∧ t.id = tid ∧ (∀ u ∈ pre, u.id ≠ tid) ∧
      firstIdxWithId tid ts = some pre.length ∧ ts.eraseIdx pre.length = pre ++ post) ∨
    ((∀ t ∈ ts, t.id ≠ tid) ∧ firstIdxWithId tid ts = none) := by
  induction ts with
  | nil => exact Or.inr ⟨fun t ht => absurd ht (List.not_mem_nil t), rfl⟩
  | cons t ts ih =>
    by_cases h : t.id = tid
    · exact Or.inl ⟨[], t, ts, rfl, h, fun u hu => absurd hu (List.not_mem_nil u),
        by simp [firstIdxWithId, h], rfl⟩
    · rcases ih with ⟨pre, u, post, he, hu, hpre, hidx, hera⟩ | ⟨hall, hidx⟩
      · refine Or.inl ⟨t :: pre, u, post, by rw [he]; rfl, hu, ?_, ?_, ?_⟩
        · intro v hv
          rcases List.mem_cons.mp hv with rfl | hv'
          · exact h
          · exact hpre v hv'
        · simp [firstIdxWithId, h, hidx]
        · simpa using hera
      · refine Or.inr ⟨?_, by simp [firstIdxWithId, h, hidx]⟩
        intro v hv
        rcases List.mem_cons.mp hv with rfl | hv'
        · exact h
        · exact hall v hv'

/-! The claims. -/

/-- C1: Round-trip of persistence: saving any list of well-formed records and
then loading yields the same list (same ids, dates, amounts, same order), and
the file is not rewritten by the load. -/
theorem save_load_round_trip (ts : List Record) :
    load_transactions (save_transactions ts) = some (ts, save_transactions ts) := by
  have h1 := cleanFrom_map_recordToJ ts 1
  have h2 := listEqRecords_map_recordToJ ts
  simp [load_transactions, save_transactions, jsonOfList, h1, h2]

/-- C2, counterexample: a file holding one valid record and one object with
all required fields missing does NOT load to just the valid record — the
incomplete object is defaulted and kept, not dropped. -/
theorem load_partial_corruption_counterexample :
    (load_transactions (.content (.jarr
        [recordToJ ⟨1, "2023-06-01", 100⟩, .jobj []]))).map Prod.fst
      = some [⟨1, "2023-06-01", 100⟩, ⟨2, "", 0⟩] ∧
    (load_transactions (.content (.jarr
        [recordToJ ⟨1, "2023-06-01", 100⟩, .jobj []]))).map Prod.fst
      ≠ some [⟨1, "2023-06-01", 100⟩] :=
  ⟨by decide, by decide⟩

/-- C2 (amended): loading a file holding one valid record and one object
missing the required fields keeps both: the object is coerced with defaults
(id from its 1-based position, empty date, amount 0); only non-objects and
objects whose present fields fail conversion are dropped; and since the
cleaned list differs from what was read, the file is rewritten to exactly the
cleaned list. -/
theorem load_partial_corruption (r : Record) :
    load_transactions (.content (.jarr [recordToJ r, .jobj []]))
      = some ([r, ⟨2, "", 0⟩], .content (jsonOfList [r, ⟨2, "", 0⟩])) := by
  have hclean : cleanFrom 1 [recordToJ r, .jobj []] = [r, ⟨2, "", 0⟩] := rfl
  have hbad : jvalEqRecord (.jobj []) ⟨2, "", 0⟩ = false := rfl
  have heq : listEqRecords [recordToJ r, .jobj []] [r, ⟨2, "", 0⟩] = false := by
    simp [listEqRecords, hbad]
  simp [load_transactions, hclean, heq]

/-- C3: on a data file whose bytes are not valid UTF-8 — a file content that
fails to parse as JSON — the loader raises an uncaught UnicodeDecodeError
(`none`) instead of recovering: the seed fallback covers only text whose
parse raises JSONDecodeError (and parsed non-array content), because that is
the sole exception the `try` block catches. -/
theorem load_unicode_decode_error :
    load_transactions FileState.notUtf8 = none ∧
    load_transactions FileState.notUtf8
      ≠ some (DEFAULT_TRANSACTIONS, .content DEFAULT_FILE_JSON) ∧
    load_transactions FileState.notJson
      = some (DEFAULT_TRANSACTIONS, .content DEFAULT_FILE_JSON) :=
  ⟨rfl, fun h => Option.noConfusion h, rfl⟩

/-- C4: for a non-empty record list with maximum id m, next_id returns m + 1;
for the empty list it returns 1. -/
theorem next_id_spec (ts : List Record) (m : Int) (hne : ts ≠ [])
    (hmem : m ∈ ts.map fun t => t.id)
    (hub : ∀ x ∈ ts.map (fun t => t.id), x ≤ m) :
    next_id ts = m + 1 ∧ next_id [] = 1 := by
  refine ⟨?_, rfl⟩
  have hmapne : (ts.map fun t => t.id) ≠ [] := by
    cases ts
    · exact absurd rfl hne
    · simp
  have h1 : pyMaxD (ts.map fun t => t.id) 0 ≤ m := hub _ (pyMaxD_mem _ _ hmapne)
  have h2 : m ≤ pyMaxD (ts.map fun t => t.id) 0 := le_pyMaxD _ _ _ hmem
  unfold next_id
  omega

/-- C4, witness on the default list, whose maximum id is 3. -/
theorem next_id_spec_witness :
    next_id DEFAULT_TRANSACTIONS = 3 + 1 ∧ next_id [] = 1 :=
  next_id_spec DEFAULT_TRANSACTIONS 3 (by decide) (by decide) (by decide)

/-- C5, counterexample: a loaded file can contain two valid records with the
same id, and load returns them both — the in-memory list reached through this
load has duplicate ids, so not every reachable state has unique ids. -/
theorem id_uniqueness_counterexample :
    ((load_transactions (.content (.jarr
        [ .jobj [("id", .jint 1), ("date", .jstr "a"), ("amount", .jint 1)],
          .jobj [("id", .jint 1), ("date", .jstr "b"), ("amount", .jint 2)] ]))).map
        fun p => p.1.map fun t => t.id) = some [1, 1] ∧
    ¬ ([1, 1] : List Int).Nodup :=
  ⟨by decide, by decide⟩

/-- C5 (amended): create, update and delete each preserve id-uniqueness of
the in-memory list, but load does not establish it in general: a file whose
array holds two valid records with the same id loads to a list with duplicate
ids (uniqueness after a load only holds when the cleaned file content itself
has distinct ids, as files the application saved do). -/
theorem crud_preserves_id_uniqueness (st : Store) (tid : Int) (d raw : String)
    (h : (st.transactions.map fun t => t.id).Nodup) :
    ((add_transaction st d raw).1.transactions.map fun t => t.id).Nodup ∧
    ((edit_transaction_post st tid d raw).1.transactions.map fun t => t.id).Nodup ∧
    ((delete_transaction st tid).1.transactions.map fun t => t.id).Nodup := by
  refine ⟨?_, ?_, ?_⟩
  · cases hp : pyFloatOfString? raw with
    | none => simpa [add_transaction, hp] using h
    | some a =>
      have hnotmem : next_id st.transactions ∉ st.transactions.map fun t => t.id := by
        intro hmem
        have hle := le_pyMaxD (st.transactions.map fun t => t.id) 0 _ hmem
        unfold next_id at hle
        omega
      have hnd : ((st.transactions.map fun t => t.id)
          ++ [next_id st.transactions]).Nodup := by
        rw [List.nodup_append]
        refine ⟨h, List.nodup_singleton _, ?_⟩
        intro b hb hb2
        have hbeq : b = next_id st.transactions := by simpa using hb2
        exact hnotmem (hbeq ▸ hb)
      simpa [add_transaction, hp] using hnd
  · cases hp : pyFloatOfString? raw with
    | none => simpa [edit_transaction_post, hp] using h
    | some a => simpa [edit_transaction_post, hp, editFirst_map_id] using h
  · cases hd : firstIdxWithId tid st.transactions with
    | none => simpa [delete_transaction, hd] using h
    | some i =>
      have hsub : List.Sublist ((st.transactions.eraseIdx i).map fun t => t.id)
          (st.transactions.map fun t => t.id) :=
        (List.eraseIdx_sublist st.transactions i).map _
      simpa [delete_transaction, hd] using h.sublist hsub

/-- C5, witness: the three preservation facts at the default store. -/
theorem crud_preserves_id_uniqueness_witness :
    ((add_transaction ⟨DEFAULT_TRANSACTIONS, .content DEFAULT_FILE_JSON⟩
        "2023-07-01" "50").1.transactions.map fun t => t.id).Nodup ∧
    ((edit_transaction_post ⟨DEFAULT_TRANSACTIONS, .content DEFAULT_FILE_JSON⟩
        2 "2023-07-01" "50").1.transactions.map fun t => t.id).Nodup ∧
    ((delete_transaction ⟨DEFAULT_TRANSACTIONS, .content DEFAULT_FILE_JSON⟩
        2).1.transactions.map fun t => t.id).Nodup :=
  crud_preserves_id_uniqueness ⟨DEFAULT_TRANSACTIONS, .content DEFAULT_FILE_JSON⟩
    2 "2023-07-01" "50" (by decide)

/-- C6: when the amount field does not convert to a number, create and update
both surface the raised ValueError, leave the in-memory list (indeed the whole
store, file included) unchanged, and never reach a save. -/
theorem invalid_amount_rejected (st : Store) (tid : Int) (d raw : String)
    (h : pyFloatOfString? raw = none) :
    add_transaction st d raw = (st, .valueError) ∧
    edit_transaction_post st tid d raw = (st, .valueError) := by
  constructor
  · simp [add_transaction, h]
  · simp [edit_transaction_post, h]

/-- C6, witness at a non-numeric amount string. -/
theorem invalid_amount_rejected_witness :
    add_transaction ⟨DEFAULT_TRANSACTIONS, .content DEFAULT_FILE_JSON⟩
        "2023-07-01" "abc"
      = (⟨DEFAULT_TRANSACTIONS, .content DEFAULT_FILE_JSON⟩, .valueError) ∧
    edit_transaction_post ⟨DEFAULT_TRANSACTIONS, .content DEFAULT_FILE_JSON⟩
        2 "2023-07-01" "abc"
      = (⟨DEFAULT_TRANSACTIONS, .content DEFAULT_FILE_JSON⟩, .valueError) :=
  invalid_amount_rejected _ 2 _ _ (by decide)

/-- C7, counterexample: posting an update for an id that is not in the list
responds with a redirect, not with the not-found response the claim asks
for (the 404 exists only on the GET path). -/
theorem edit_absent_id_counterexample :
    (edit_transaction_post ⟨[⟨1, "2023-06-01", 100⟩],
        .content (jsonOfList [⟨1, "2023-06-01", 100⟩])⟩ 2 "2024-01-01" "5").2
      = HttpResult.redirect ∧
    HttpResult.redirect ≠ HttpResult.notFound :=
  ⟨by decide, by decide⟩

/-- C7 (amended): for an id absent from the list, a posted update performs no
mutation of the list or the file and does not save — but it responds with a
redirect; the distinct not-found response is produced by the GET edit-form
lookup for that absent id. -/
theorem edit_absent_id (st : Store) (tid : Int) (d raw : String) (a : Rat)
    (hconv : pyFloatOfString? raw = some a)
    (habs : ∀ t ∈ st.transactions, t.id ≠ tid) :
    edit_transaction_post st tid d raw = (st, .redirect) ∧
    edit_transaction_get st tid = .notFound := by
  constructor
  · have hnf := editFirst_not_found tid d a st.transactions habs
    simp [edit_transaction_post, hconv, hnf]
  · have hfind : st.transactions.find? (fun t => t.id == tid) = none := by
      rw [List.find?_eq_none]
      intro t ht
      simpa using habs t ht
    simp [edit_transaction_get, hfind]

/-- C7, witness at an id none of the default records has. -/
theorem edit_absent_id_witness :
    edit_transaction_post ⟨DEFAULT_TRANSACTIONS, .content DEFAULT_FILE_JSON⟩
        99 "2024-01-01" "5"
      = (⟨DEFAULT_TRANSACTIONS, .content DEFAULT_FILE_JSON⟩, .redirect) ∧
    edit_transaction_get ⟨DEFAULT_TRANSACTIONS, .content DEFAULT_FILE_JSON⟩ 99
      = .notFound :=
  edit_absent_id _ 99 _ _ 5 (by decide) (by decide)

/-- C8: delete removes exactly the first record whose id matches and persists
the shortened list; when no record matches it is a no-op — the store (list
and file alike) is returned unchanged and no save happens. -/
theorem delete_spec (st : Store) (tid : Int) :
    (∃ pre t post,
      st.transactions = pre ++ t :: post ∧ t.id = tid ∧ (∀ u ∈ pre, u.id ≠ tid) ∧
      delete_transaction st tid
        = (⟨pre ++ post, save_transactions (pre ++ post)⟩, .redirect)) ∨
    ((∀ t ∈ st.transactions, t.id ≠ tid) ∧
      delete_transaction st tid = (st, .redirect)) := by
  rcases firstIdxWithId_cases tid st.transactions with
    ⟨pre, t, post, he, ht, hpre, hidx, hera⟩ | ⟨hall, hidx⟩
  · exact Or.inl ⟨pre, t, post, he, ht, hpre,
      by simp [delete_transaction, hidx, hera]⟩
  · exact Or.inr ⟨hall, by simp [delete_transaction, hidx]⟩

/-- On a list whose elements form the pair 1, 2 in some order, Python max
with default 0 is 2. -/
lemma pyMaxD_perm_pair (l : List Int) (h : l.Perm [1, 2]) : pyMaxD l 0 = 2 := by
  have hne : l ≠ [] := by
    intro h0
    have hlen := h.length_eq
    rw [h0] at hlen
    simp at hlen
  have hmem : pyMaxD l 0 ∈ l := pyMaxD_mem l 0 hne
  have h2 : (2 : Int) ∈ l := h.mem_iff.mpr (by simp)
  have hle := le_pyMaxD l 0 2 h2
  have hpair : pyMaxD l 0 ∈ ([1, 2] : List Int) := h.mem_iff.mp hmem
  simp at hpair
  rcases hpair with h1 | h1 <;> omega

/-- C9: on a store whose ids are exactly the set 1, 2, 3, deleting the record
with id 3 and then creating a new record assigns id 3 again — next_id derives
only from the current maximum, so the deleted maximal id is reused. -/
theorem id_reuse_after_delete_max (st : Store) (d raw : String) (a : Rat)
    (hids : (st.transactions.map fun t => t.id).Perm [1, 2, 3])
    (hconv : pyFloatOfString? raw = some a) :
    (add_transaction (delete_transaction st 3).1 d raw).1.transactions
      = (delete_transaction st 3).1.transactions ++ [⟨3, d, a⟩] := by
  rcases firstIdxWithId_cases 3 st.transactions with
    ⟨pre, t, post, he, ht, hpre, hidx, hera⟩ | ⟨hall, _⟩
  · have hdel : (delete_transaction st 3).1.transactions = pre ++ post := by
      simp [delete_transaction, hidx, hera]
    have h3pre : (3 : Int) ∉ pre.map fun u => u.id := by
      intro hmem
      rcases List.mem_map.mp hmem with ⟨u, hu, hid⟩
      exact hpre u hu hid
    have herase : (st.transactions.map fun u => u.id).erase 3
        = (pre.map fun u => u.id) ++ (post.map fun u => u.id) := by
      rw [he]
      simp only [List.map_append, List.map_cons]
      rw [List.erase_append_right _ h3pre, ht, List.erase_cons_head]
    have hperm : ((pre ++ post).map fun u => u.id).Perm [1, 2] := by
      have hmap : ((pre ++ post).map fun u => u.id)
          = (st.transactions.map fun u => u.id).erase 3 := by
        rw [herase]
        simp
      rw [hmap]
      have hper := hids.erase 3
      have hconcrete : ([1, 2, 3] : List Int).erase 3 = [1, 2] := rfl
      rw [hconcrete] at hper
      exact hper
    have hnext : next_id (pre ++ post) = 3 := by
      unfold next_id
      rw [pyMaxD_perm_pair _ hperm]
      decide
    simp [add_transaction, hconv, hdel, hnext]
  · exfalso
    have h3 : (3 : Int) ∈ st.transactions.map fun u => u.id :=
      hids.mem_iff.mpr (by simp)
    rcases List.mem_map.mp h3 with ⟨u, hu, hid⟩
    exact hall u hu hid

/-- C9, witness on the default store, whose ids are 1, 2, 3. -/
theorem id_reuse_after_delete_max_witness :
    (add_transaction (delete_transaction
        ⟨DEFAULT_TRANSACTIONS, .content DEFAULT_FILE_JSON⟩ 3).1
        "2023-07-01" "50").1.transactions
      = (delete_transaction
          ⟨DEFAULT_TRANSACTIONS, .content DEFAULT_FILE_JSON⟩ 3).1.transactions
        ++ [⟨3, "2023-07-01", 50⟩] :=
  id_reuse_after_delete_max _ _ _ 50 (by decide) (by decide)

/-- The edit loop, when the first match sits at index i, keeps the length,
keeps every other position unchanged, and replaces position i by the record
with the same id and the new date and amount. -/
lemma editFirst_frame (tid : Int) (d : String) (a : Rat) (ts : List Record)
    (i : Nat) (hfind : firstIdxWithId tid ts = some i) :
    (editFirst tid d a ts).1.length = ts.length ∧
    (∀ j, j ≠ i → (editFirst tid d a ts).1[j]? = ts[j]?) ∧
    ∃ t₀, ts[i]? = some t₀ ∧ t₀.id = tid ∧
      (editFirst tid d a ts).1[i]? = some ⟨t₀.id, d, a⟩ := by
  induction ts generalizing i with
  | nil => exact absurd hfind (by simp [firstIdxWithId])
  | cons t ts ih =>
    by_cases h : t.id = tid
    · have hi : i = 0 := by
        simp [firstIdxWithId, h] at hfind
        omega
      subst hi
      refine ⟨by simp [editFirst, h], ?_, t, by simp, h, by simp [editFirst, h]⟩
      intro j hj
      match j with
      | 0 => exact absurd rfl hj
      | k + 1 => simp [editFirst, h]
    · have hstep : ∃ i', firstIdxWithId tid ts = some i' ∧ i = i' + 1 := by
        rw [firstIdxWithId] at hfind
        simp only [h, if_false] at hfind
        cases hx : firstIdxWithId tid ts with
        | none => rw [hx] at hfind; cases hfind
        | some i' =>
            rw [hx] at hfind
            simp at hfind
            exact ⟨i', rfl, hfind.symm⟩
      rcases hstep with ⟨i', hx, rfl⟩
      rcases ih i' hx with ⟨hlen, hother, t₀, hget, hid0, hset⟩
      refine ⟨by simp [editFirst, h, hlen], ?_, t₀, by simpa using hget, hid0,
        by simpa [editFirst, h] using hset⟩
      intro j hj
      match j with
      | 0 => simp [editFirst, h]
      | k + 1 =>
        have hk : k ≠ i' := by
          intro hkk
          exact hj (by rw [hkk])
        simpa [editFirst, h] using hother k hk

/-- C10: a successful posted update modifies only the date and amount of the
first record whose id matches: the list length is preserved, every other
position is untouched, and the updated position keeps its id (so with
duplicate ids only the first match changes). -/
theorem update_frame (st : Store) (tid : Int) (d raw : String) (a : Rat)
    (i : Nat) (hconv : pyFloatOfString? raw = some a)
    (hfind : firstIdxWithId tid st.transactions = some i) :
    (edit_transaction_post st tid d raw).1.transactions.length
      = st.transactions.length ∧
    (∀ j, j ≠ i → (edit_transaction_post st tid d raw).1.transactions[j]?
      = st.transactions[j]?) ∧
    ∃ t₀, st.transactions[i]? = some t₀ ∧ t₀.id = tid ∧
      (edit_transaction_post st tid d raw).1.transactions[i]? = some ⟨t₀.id, d, a⟩ := by
  have hmain := editFirst_frame tid d a st.transactions i hfind
  simpa [edit_transaction_post, hconv] using hmain

/-- C10, witness: updating id 2 of the default store touches exactly index 1. -/
theorem update_frame_witness :
    (edit_transaction_post ⟨DEFAULT_TRANSACTIONS, .content DEFAULT_FILE_JSON⟩
        2 "2023-06-02" "-250").1.transactions.length
      = DEFAULT_TRANSACTIONS.length ∧
    (∀ j, j ≠ 1 → (edit_transaction_post
        ⟨DEFAULT_TRANSACTIONS, .content DEFAULT_FILE_JSON⟩
        2 "2023-06-02" "-250").1.transactions[j]? = DEFAULT_TRANSACTIONS[j]?) ∧
    ∃ t₀, DEFAULT_TRANSACTIONS[1]? = some t₀ ∧ t₀.id = 2 ∧
      (edit_transaction_post ⟨DEFAULT_TRANSACTIONS, .content DEFAULT_FILE_JSON⟩
        2 "2023-06-02" "-250").1.transactions[1]? = some ⟨t₀.id, "2023-06-02", -250⟩ :=
  update_frame ⟨DEFAULT_TRANSACTIONS, .content DEFAULT_FILE_JSON⟩ 2 "2023-06-02"
    "-250" (-250) 1 (by decide) (by decide)
